import Mathlib

/-!
Verification of the circular-buffer / binary-semaphore demo in
`FreeRTOS_13_semaphore_circle_buffer/FreeRTOS/Demo/CORTEX_STM32F103_Keil/main.c`.

The ring buffer (`txbuf`, `tx_r`, `tx_w`, `NEXT_PLACE`, `is_txbuf_empty`,
`is_txbuf_full`, `txbuf_put`, `txbuf_get`) is embedded as explicit state
passing over a `TxBuf` record.  The producer task `vSenderTask`, the consumer
task `vReceiverTask` and the startup logic of `main` are embedded as functions
producing the buffer state transitions and the sequence of externally visible
actions (puts, semaphore gives, delays, task creations, scheduler start).

C machine integers are modelled as `Nat`.  The indices `tx_r`/`tx_w` are
`uint32_t` in the source; all index arithmetic goes through
`NEXT_PLACE(i) = (i+1) & 0x1F`, and since 32 divides 2^32 the uint32 wrap of
`i+1` cannot change the low five bits, so plain `Nat` addition under the mask
is exact.  Return code `-1`/`0` is modelled as `Int`.  The out-parameter
`*pval` of `txbuf_get` is modelled as an `Option Nat` (`none` when the call
fails and leaves `*pval` unwritten).
-/

/-- `#define BUF_LEN 32` (main.c line 120). -/
def BUF_LEN : Nat := 32

/-- `#define NEXT_PLACE(i) ((i+1)&0x1F)` (main.c line 121). -/
def NEXT_PLACE (i : Nat) : Nat := (i + 1) &&& 0x1F

/-- The mask `& 0x1F` is reduction mod 32. -/
theorem NEXT_PLACE_eq_mod (i : Nat) : NEXT_PLACE i = (i + 1) % 32 := by
  have h := Nat.and_pow_two_sub_one_eq_mod (i + 1) 5
  norm_num at h
  exact h

/-- The ring-buffer state: `uint8_t txbuf[BUF_LEN]; uint32_t tx_r; uint32_t tx_w;`
(main.c lines 123-125). -/
structure TxBuf where
  txbuf : List Nat
  tx_r : Nat
  tx_w : Nat
deriving DecidableEq, Repr

/-- The initial state: a zero-initialised global array with `tx_r = tx_w = 0`. -/
def initTxBuf : TxBuf := ⟨List.replicate BUF_LEN 0, 0, 0⟩

/-- `static int is_txbuf_empty(void) { return tx_r == tx_w; }` (lines 127-130). -/
def is_txbuf_empty (s : TxBuf) : Bool := s.tx_r == s.tx_w

/-- `static int is_txbuf_full(void) { return NEXT_PLACE(tx_w) == tx_r; }`
(lines 132-135). -/
def is_txbuf_full (s : TxBuf) : Bool := NEXT_PLACE s.tx_w == s.tx_r

/-- `static int txbuf_put(unsigned char val)` (lines 137-144): on full return
`-1`; otherwise store `val` at `tx_w`, advance `tx_w`, return `0`. -/
def txbuf_put (s : TxBuf) (val : Nat) : TxBuf × Int :=
  if is_txbuf_full s then (s, -1)
  else ({ s with txbuf := s.txbuf.set s.tx_w val, tx_w := NEXT_PLACE s.tx_w }, 0)

/-- `static int txbuf_get(unsigned char *pval)` (lines 146-153): on empty
return `-1` (leaving `*pval` unwritten, modelled `none`); otherwise write
`txbuf[tx_r]` to `*pval`, advance `tx_r`, return `0`. -/
def txbuf_get (s : TxBuf) : TxBuf × Int × Option Nat :=
  if is_txbuf_empty s then (s, -1, none)
  else ({ s with tx_r := NEXT_PLACE s.tx_r }, 0, some (s.txbuf.getD s.tx_r 0))

/-- States reachable from `initTxBuf` keep both indices below `BUF_LEN` and the
backing array at length `BUF_LEN`. -/
def Valid (s : TxBuf) : Prop :=
  s.tx_r < BUF_LEN ∧ s.tx_w < BUF_LEN ∧ s.txbuf.length = BUF_LEN

instance (s : TxBuf) : Decidable (Valid s) := by
  unfold Valid; infer_instance

/-- Number of bytes currently pending (stored but not yet consumed). -/
def pending (s : TxBuf) : Nat := (s.tx_w + BUF_LEN - s.tx_r) % BUF_LEN

/-- The pending bytes in FIFO order, read from `tx_r` onwards. -/
def contents (s : TxBuf) : List Nat :=
  (List.range (pending s)).map (fun k => s.txbuf.getD ((s.tx_r + k) % BUF_LEN) 0)

/-- The events a task performs that are visible outside the buffer state. -/
inductive SenderEvent where
  | put (val : Nat)
  | give
  | delay
deriving DecidableEq, Repr

/-- The byte the producer passes to `txbuf_put`: `'a'+cnt_tx` converted to
`unsigned char` at the call (main.c line 172). -/
def senderByte (cnt : Nat) : Nat := (97 + cnt) % 256

/-- One iteration group of the producer's inner loop
`for (i = 0; i < 3; i++) { txbuf_put('a'+cnt_tx); cnt_tx++; xSemaphoreGive...; }`
(main.c lines 169-180), run for `n` remaining iterations.  Returns the buffer
state, the updated `cnt_tx` and the event trace. -/
def senderInner (s : TxBuf) (cnt : Nat) : Nat → TxBuf × Nat × List SenderEvent
  | 0 => (s, cnt, [])
  | n + 1 =>
    let r := txbuf_put s (senderByte cnt)
    let rest := senderInner r.1 (cnt + 1) n
    (rest.1, rest.2.1, SenderEvent.put (senderByte cnt) :: SenderEvent.give :: rest.2.2)

/-- One full cycle of the producer's outer `for(;;)` loop (main.c lines
167-183): three put/give pairs then `vTaskDelay`. -/
def senderCycle (s : TxBuf) (cnt : Nat) : TxBuf × Nat × List SenderEvent :=
  let r := senderInner s cnt 3
  (r.1, r.2.1, r.2.2 ++ [SenderEvent.delay])

/-- `k` consecutive cycles of the producer loop. -/
def senderRun (s : TxBuf) (cnt : Nat) : Nat → TxBuf × Nat × List SenderEvent
  | 0 => (s, cnt, [])
  | k + 1 =>
    let c := senderCycle s cnt
    let rest := senderRun c.1 c.2.1 k
    (rest.1, rest.2.1, c.2.2 ++ rest.2.2)

/-- The bytes a trace attempts to put, in order. -/
def putsOf (evs : List SenderEvent) : List Nat :=
  evs.filterMap fun e =>
    match e with
    | SenderEvent.put v => some v
    | _ => none

/-- The arguments of one `xTaskCreate` call in `main`. -/
structure TaskSpec where
  taskName : String
  stackDepth : Nat
  priority : Nat
deriving DecidableEq, Repr

/-- Startup actions `main` can perform after creating the semaphore. -/
inductive MainAction where
  | createTask (t : TaskSpec)
  | startScheduler
deriving DecidableEq, Repr

/-- `xTaskCreate( vSenderTask, "Sender", 1000, NULL, 2, NULL )` (main.c line 99). -/
def senderTaskSpec : TaskSpec := ⟨"Sender", 1000, 2⟩

/-- `xTaskCreate( vReceiverTask, "Receiver", 1000, NULL, 1, NULL )` (main.c line 104). -/
def receiverTaskSpec : TaskSpec := ⟨"Receiver", 1000, 1⟩

/-- The startup logic of `main` (main.c lines 87-116) as a function of whether
`xSemaphoreCreateBinary` succeeded: on success create the two tasks and start
the scheduler; on failure do nothing. -/
def mainActions (semCreated : Bool) : List MainAction :=
  if semCreated then
    [MainAction.createTask senderTaskSpec,
     MainAction.createTask receiverTaskSpec,
     MainAction.startScheduler]
  else []

/-- A buffer operation, for stating reachability invariants. -/
inductive BufOp where
  | put (val : Nat)
  | get
deriving DecidableEq, Repr

/-- Apply one buffer operation to the state (discarding return values). -/
def applyOp (s : TxBuf) : BufOp → TxBuf
  | BufOp.put v => (txbuf_put s v).1
  | BufOp.get => (txbuf_get s).1

/-- Run a sequence of buffer operations from a state. -/
def runOps (s : TxBuf) (ops : List BufOp) : TxBuf := ops.foldl applyOp s

/-- A sequence of `txbuf_put` calls, stopping at the first failure: returns the
final state and `0` iff every call succeeded. -/
def putList (s : TxBuf) : List Nat → TxBuf × Int
  | [] => (s, 0)
  | v :: vs =>
    let r := txbuf_put s v
    if r.2 = 0 then putList r.1 vs else (r.1, -1)

/-- Exactly `n` consecutive `txbuf_get` calls, collecting each call's
out-parameter result. -/
def getList (s : TxBuf) : Nat → TxBuf × List (Option Nat)
  | 0 => (s, [])
  | n + 1 =>
    let r := txbuf_get s
    let rest := getList r.1 n
    (rest.1, r.2.2 :: rest.2)

/-- The consumer's drain loop `while (txbuf_get(&c) == 0) { ... }` (main.c
lines 202-205), with fuel: returns the final state, the bytes read, and the
total number of `txbuf_get` calls made. -/
def drainLoop : Nat → TxBuf → TxBuf × List Nat × Nat
  | 0, s => (s, [], 0)
  | fuel + 1, s =>
    let r := txbuf_get s
    if r.2.1 = 0 then
      let rest := drainLoop fuel r.1
      (rest.1, r.2.2.toList ++ rest.2.1, rest.2.2 + 1)
    else (s, [], 1)

/-- A concrete full state: `tx_w = 0`, `tx_r = 1`, so `NEXT_PLACE(tx_w) = tx_r`. -/
def fullSt : TxBuf := ⟨List.replicate BUF_LEN 0, 1, 0⟩

/-- A concrete non-empty state: one byte `5` pending at index 0. -/
def oneSt : TxBuf := ⟨List.replicate BUF_LEN 5, 0, 1⟩

theorem is_txbuf_empty_iff (s : TxBuf) : is_txbuf_empty s = true ↔ s.tx_r = s.tx_w := by
  simp [is_txbuf_empty]

theorem is_txbuf_full_iff (s : TxBuf) :
    is_txbuf_full s = true ↔ (s.tx_w + 1) % 32 = s.tx_r := by
  simp [is_txbuf_full, NEXT_PLACE_eq_mod]

/-- C2: a put on a full buffer returns -1 and changes nothing; a put on a
non-full buffer stores the byte at `tx_w`, advances `tx_w` by one modulo 32,
leaves `tx_r` unchanged and returns 0. -/
theorem claim_C2 (s : TxBuf) (val : Nat) :
    (is_txbuf_full s = true → txbuf_put s val = (s, -1)) ∧
    (is_txbuf_full s = false →
      (txbuf_put s val).2 = 0 ∧
      (txbuf_put s val).1.txbuf = s.txbuf.set s.tx_w val ∧
      (txbuf_put s val).1.tx_w = (s.tx_w + 1) % 32 ∧
      (txbuf_put s val).1.tx_r = s.tx_r) := by
  constructor
  · intro h; simp [txbuf_put, h]
  · intro h; simp [txbuf_put, h, NEXT_PLACE_eq_mod]

/-- C2 witness: both branches of `claim_C2` at concrete states. -/
theorem claim_C2_witness :
    (is_txbuf_full fullSt = true ∧ txbuf_put fullSt 7 = (fullSt, -1)) ∧
    (is_txbuf_full initTxBuf = false ∧
      (txbuf_put initTxBuf 7).2 = 0 ∧
      (txbuf_put initTxBuf 7).1.txbuf = initTxBuf.txbuf.set initTxBuf.tx_w 7 ∧
      (txbuf_put initTxBuf 7).1.tx_w = (initTxBuf.tx_w + 1) % 32 ∧
      (txbuf_put initTxBuf 7).1.tx_r = initTxBuf.tx_r) :=
  ⟨⟨by decide, (claim_C2 fullSt 7).1 (by decide)⟩,
   ⟨by decide, (claim_C2 initTxBuf 7).2 (by decide)⟩⟩

/-- C3: a get on an empty buffer returns -1 and changes nothing (and leaves the
out-parameter unwritten); a get on a non-empty buffer returns the byte at
`tx_r`, advances `tx_r` by one modulo 32, leaves `tx_w` and the array
unchanged and returns 0. -/
theorem claim_C3 (s : TxBuf) :
    (is_txbuf_empty s = true → txbuf_get s = (s, -1, none)) ∧
    (is_txbuf_empty s = false →
      (txbuf_get s).2.1 = 0 ∧
      (txbuf_get s).2.2 = some (s.txbuf.getD s.tx_r 0) ∧
      (txbuf_get s).1.tx_r = (s.tx_r + 1) % 32 ∧
      (txbuf_get s).1.tx_w = s.tx_w ∧
      (txbuf_get s).1.txbuf = s.txbuf) := by
  constructor
  · intro h; simp [txbuf_get, h]
  · intro h; simp [txbuf_get, h, NEXT_PLACE_eq_mod]

/-- C3 witness: both branches of `claim_C3` at concrete states. -/
theorem claim_C3_witness :
    (is_txbuf_empty initTxBuf = true ∧ txbuf_get initTxBuf = (initTxBuf, -1, none)) ∧
    (is_txbuf_empty oneSt = false ∧
      (txbuf_get oneSt).2.1 = 0 ∧
      (txbuf_get oneSt).2.2 = some (oneSt.txbuf.getD oneSt.tx_r 0) ∧
      (txbuf_get oneSt).1.tx_r = (oneSt.tx_r + 1) % 32 ∧
      (txbuf_get oneSt).1.tx_w = oneSt.tx_w ∧
      (txbuf_get oneSt).1.txbuf = oneSt.txbuf) :=
  ⟨⟨by decide, (claim_C3 initTxBuf).1 (by decide)⟩,
   ⟨by decide, (claim_C3 oneSt).2 (by decide)⟩⟩

/-- C4: in every producer cycle, whatever the buffer state (so whether each
`txbuf_put` succeeds or fails), the event trace is exactly put/give, put/give,
put/give, delay: a give immediately follows every put. -/
theorem claim_C4 (s : TxBuf) (cnt : Nat) :
    (senderCycle s cnt).2.2 =
      [SenderEvent.put (senderByte cnt), SenderEvent.give,
       SenderEvent.put (senderByte (cnt + 1)), SenderEvent.give,
       SenderEvent.put (senderByte (cnt + 2)), SenderEvent.give,
       SenderEvent.delay] := by
  simp [senderCycle, senderInner]

/-- C5 counterexample: the producer task ("Sender") is created with priority 2
and the consumer task ("Receiver") with priority 1, so the producer's priority
is NOT lower than the consumer's. -/
theorem claim_C5_counterexample :
    senderTaskSpec.priority = 2 ∧ receiverTaskSpec.priority = 1 ∧
    ¬ senderTaskSpec.priority < receiverTaskSpec.priority := by decide

/-- C5 (amended): the two tasks are created with different fixed priorities,
the producer's priority (2) being HIGHER than the consumer's (1). -/
theorem claim_C5 :
    MainAction.createTask senderTaskSpec ∈ mainActions true ∧
    MainAction.createTask receiverTaskSpec ∈ mainActions true ∧
    senderTaskSpec.priority ≠ receiverTaskSpec.priority ∧
    receiverTaskSpec.priority < senderTaskSpec.priority := by decide

/-- C9: when semaphore creation fails neither task is created and the
scheduler is never started; when it succeeds both tasks are created and the
scheduler is started. -/
theorem claim_C9 :
    MainAction.createTask senderTaskSpec ∉ mainActions false ∧
    MainAction.createTask receiverTaskSpec ∉ mainActions false ∧
    MainAction.startScheduler ∉ mainActions false ∧
    MainAction.createTask senderTaskSpec ∈ mainActions true ∧
    MainAction.createTask receiverTaskSpec ∈ mainActions true ∧
    MainAction.startScheduler ∈ mainActions true := by decide

theorem runOps_idx : ∀ (ops : List BufOp) (s : TxBuf), s.tx_r < 32 → s.tx_w < 32 →
    (runOps s ops).tx_r < 32 ∧ (runOps s ops).tx_w < 32 := by
  intro ops
  induction ops with
  | nil => intro s h1 h2; exact ⟨h1, h2⟩
  | cons op ops ih =>
    intro s h1 h2
    have step : (applyOp s op).tx_r < 32 ∧ (applyOp s op).tx_w < 32 := by
      cases op with
      | put v =>
        simp only [applyOp, txbuf_put]
        split
        · exact ⟨h1, h2⟩
        · refine ⟨by simpa using h1, ?_⟩
          simp only [NEXT_PLACE_eq_mod]
          omega
      | get =>
        simp only [applyOp, txbuf_get]
        split
        · exact ⟨h1, h2⟩
        · refine ⟨?_, by simpa using h2⟩
          simp only [NEXT_PLACE_eq_mod]
          omega
    have h := ih (applyOp s op) step.1 step.2
    simpa [runOps, List.foldl_cons] using h

/-- C10: from the initial state, after any sequence of puts and gets both
indices stay below 32 and the buffer is never simultaneously empty and full. -/
theorem claim_C10 (ops : List BufOp) :
    (runOps initTxBuf ops).tx_r < 32 ∧ (runOps initTxBuf ops).tx_w < 32 ∧
    ¬ (is_txbuf_empty (runOps initTxBuf ops) = true ∧
       is_txbuf_full (runOps initTxBuf ops) = true) := by
  obtain ⟨h1, h2⟩ := runOps_idx ops initTxBuf (by decide) (by decide)
  refine ⟨h1, h2, ?_⟩
  rintro ⟨he, hf⟩
  rw [is_txbuf_empty_iff] at he
  rw [is_txbuf_full_iff] at hf
  omega

theorem getD_set_self (l : List Nat) (i v d : Nat) (h : i < l.length) :
    (l.set i v).getD i d = v := by
  simp [List.getD_eq_getElem?_getD, List.getElem?_set, h]

theorem getD_set_ne (l : List Nat) (i j v d : Nat) (h : i ≠ j) :
    (l.set i v).getD j d = l.getD j d := by
  simp [List.getD_eq_getElem?_getD, List.getElem?_set, h]

theorem contents_length (s : TxBuf) : (contents s).length = pending s := by
  simp [contents]

theorem contents_nil_iff (s : TxBuf) (hv : Valid s) :
    contents s = [] ↔ is_txbuf_empty s = true := by
  obtain ⟨hr, hw, _⟩ := hv
  simp only [BUF_LEN] at hr hw
  simp only [contents, is_txbuf_empty, pending, BUF_LEN, List.map_eq_nil_iff,
    List.range_eq_nil, beq_iff_eq]
  omega

theorem full_iff_pending (s : TxBuf) (hv : Valid s) :
    is_txbuf_full s = true ↔ pending s = 31 := by
  obtain ⟨hr, hw, _⟩ := hv
  simp only [BUF_LEN] at hr hw
  simp only [is_txbuf_full, NEXT_PLACE_eq_mod, pending, BUF_LEN, beq_iff_eq]
  omega

/-- A successful put appends the byte to the pending contents. -/
theorem txbuf_put_spec (s : TxBuf) (val : Nat) (hv : Valid s)
    (hf : is_txbuf_full s = false) :
    (txbuf_put s val).2 = 0 ∧ Valid (txbuf_put s val).1 ∧
    contents (txbuf_put s val).1 = contents s ++ [val] := by
  obtain ⟨hr, hw, hl⟩ := hv
  simp only [BUF_LEN] at hr hw hl
  have hfne : ¬ (is_txbuf_full s = true) := by simp [hf]
  have hfm : ¬ (s.tx_w + 1) % 32 = s.tx_r := by
    simpa [is_txbuf_full, NEXT_PLACE_eq_mod] using hf
  simp only [txbuf_put, if_neg hfne]
  refine ⟨by trivial, ⟨?_, ?_, ?_⟩, ?_⟩
  · exact hr
  · show NEXT_PLACE s.tx_w < BUF_LEN
    rw [NEXT_PLACE_eq_mod]
    simp only [BUF_LEN]
    omega
  · show (s.txbuf.set s.tx_w val).length = BUF_LEN
    rw [List.length_set]
    exact hl
  · have hp : pending s = (s.tx_w + 32 - s.tx_r) % 32 := by
      simp [pending, BUF_LEN]
    have hp' : pending ⟨s.txbuf.set s.tx_w val, s.tx_r, NEXT_PLACE s.tx_w⟩ =
        pending s + 1 := by
      simp only [pending, BUF_LEN, NEXT_PLACE_eq_mod]
      omega
    show contents ⟨s.txbuf.set s.tx_w val, s.tx_r, NEXT_PLACE s.tx_w⟩ =
      contents s ++ [val]
    unfold contents
    rw [hp', List.range_succ, List.map_append]
    congr 1
    · apply List.map_congr_left
      intro k hk
      rw [List.mem_range] at hk
      rw [hp] at hk
      have hne : (s.tx_r + k) % 32 ≠ s.tx_w := by omega
      simp only [BUF_LEN]
      exact getD_set_ne s.txbuf s.tx_w ((s.tx_r + k) % 32) val 0 (fun h => hne h.symm)
    · have hidx : (s.tx_r + pending s) % 32 = s.tx_w := by
        rw [hp]; omega
      simp only [List.map_cons, List.map_nil, BUF_LEN]
      rw [hidx, getD_set_self s.txbuf s.tx_w val 0 (by omega)]

/-- A successful get removes and returns the head of the pending contents. -/
theorem txbuf_get_spec (s : TxBuf) (hv : Valid s)
    (he : is_txbuf_empty s = false) :
    (txbuf_get s).2.1 = 0 ∧
    (txbuf_get s).2.2 = some (s.txbuf.getD s.tx_r 0) ∧
    Valid (txbuf_get s).1 ∧
    contents s = s.txbuf.getD s.tx_r 0 :: contents (txbuf_get s).1 := by
  obtain ⟨hr, hw, hl⟩ := hv
  simp only [BUF_LEN] at hr hw hl
  have hene : ¬ (is_txbuf_empty s = true) := by simp [he]
  have hem : ¬ s.tx_r = s.tx_w := by
    simpa [is_txbuf_empty] using he
  simp only [txbuf_get, if_neg hene]
  refine ⟨by trivial, by trivial, ⟨?_, hw, hl⟩, ?_⟩
  · show NEXT_PLACE s.tx_r < BUF_LEN
    rw [NEXT_PLACE_eq_mod]
    simp only [BUF_LEN]
    omega
  · have hp : pending s = (s.tx_w + 32 - s.tx_r) % 32 := by
      simp [pending, BUF_LEN]
    have hq : pending s = pending ⟨s.txbuf, NEXT_PLACE s.tx_r, s.tx_w⟩ + 1 := by
      simp only [pending, BUF_LEN, NEXT_PLACE_eq_mod]
      omega
    show contents s = s.txbuf.getD s.tx_r 0 :: contents ⟨s.txbuf, NEXT_PLACE s.tx_r, s.tx_w⟩
    unfold contents
    rw [hq, List.range_succ_eq_map, List.map_cons, List.map_map]
    congr 1
    · simp only [BUF_LEN, Nat.add_zero, Nat.mod_eq_of_lt hr]
    · apply List.map_congr_left
      intro k _
      simp only [Function.comp_apply, BUF_LEN, NEXT_PLACE_eq_mod, Nat.mod_add_mod]
      congr 1
      omega

/-- Puts whose total stays within capacity-1 all succeed and append in order. -/
theorem putList_spec : ∀ (vs : List Nat) (s : TxBuf), Valid s →
    (contents s).length + vs.length ≤ 31 →
    (putList s vs).2 = 0 ∧ Valid (putList s vs).1 ∧
    contents (putList s vs).1 = contents s ++ vs := by
  intro vs
  induction vs with
  | nil => intro s hv _; exact ⟨rfl, hv, by simp [putList]⟩
  | cons v vs ih =>
    intro s hv hlen
    have hp : pending s ≠ 31 := by
      have hc := contents_length s
      simp only [List.length_cons] at hlen
      omega
    have hnf : is_txbuf_full s = false := by
      cases hfb : is_txbuf_full s with
      | false => rfl
      | true => exact absurd ((full_iff_pending s hv).mp hfb) hp
    obtain ⟨hz, hv', hc'⟩ := txbuf_put_spec s v hv hnf
    obtain ⟨ih1, ih2, ih3⟩ := ih (txbuf_put s v).1 hv' (by
      rw [hc']
      simp only [List.length_append, List.length_cons, List.length_nil] at hlen ⊢
      omega)
    have hstep : putList s (v :: vs) = putList (txbuf_put s v).1 vs := by
      simp [putList, hz]
    rw [hstep]
    refine ⟨ih1, ih2, ?_⟩
    rw [ih3, hc', List.append_assoc]
    rfl

/-- Getting exactly as many bytes as are pending returns them in order and
empties the buffer. -/
theorem getList_spec : ∀ (cs : List Nat) (s : TxBuf), Valid s → contents s = cs →
    (getList s cs.length).2 = cs.map some ∧
    Valid (getList s cs.length).1 ∧ contents (getList s cs.length).1 = [] := by
  intro cs
  induction cs with
  | nil => intro s hv hc; exact ⟨by simp [getList], hv, by simpa [getList] using hc⟩
  | cons c cs ih =>
    intro s hv hc
    have hnonnil : contents s ≠ [] := by rw [hc]; simp
    have hne : is_txbuf_empty s = false := by
      cases heb : is_txbuf_empty s with
      | false => rfl
      | true => exact absurd ((contents_nil_iff s hv).mpr heb) hnonnil
    obtain ⟨hz, hsome, hv', hc'⟩ := txbuf_get_spec s hv hne
    rw [hc] at hc'
    injection hc' with h1 h2
    obtain ⟨ih1, ih2, ih3⟩ := ih (txbuf_get s).1 hv' h2.symm
    refine ⟨?_, ?_, ?_⟩
    · show (getList s (cs.length + 1)).2 = some c :: cs.map some
      simp only [getList]
      rw [hsome, ih1, ← h1]
    · show Valid (getList s (cs.length + 1)).1
      simpa only [getList] using ih2
    · show contents (getList s (cs.length + 1)).1 = []
      simpa only [getList] using ih3

/-- The drain loop returns all pending bytes in order, makes exactly one more
`txbuf_get` call than there were bytes, and leaves the buffer empty. -/
theorem drainLoop_spec : ∀ (cs : List Nat) (fuel : Nat) (s : TxBuf), Valid s →
    contents s = cs → cs.length + 1 ≤ fuel →
    (drainLoop fuel s).2.1 = cs ∧ (drainLoop fuel s).2.2 = cs.length + 1 ∧
    is_txbuf_empty (drainLoop fuel s).1 = true := by
  intro cs
  induction cs with
  | nil =>
    intro fuel s hv hc hf
    obtain ⟨f, rfl⟩ : ∃ f, fuel = f + 1 := ⟨fuel - 1, by omega⟩
    have he : is_txbuf_empty s = true := (contents_nil_iff s hv).mp hc
    have hg : txbuf_get s = (s, -1, none) := by simp [txbuf_get, he]
    simp [drainLoop, hg, he]
  | cons c cs ih =>
    intro fuel s hv hc hf
    obtain ⟨f, rfl⟩ : ∃ f, fuel = f + 1 := ⟨fuel - 1, by omega⟩
    have hnonnil : contents s ≠ [] := by rw [hc]; simp
    have hne : is_txbuf_empty s = false := by
      cases heb : is_txbuf_empty s with
      | false => rfl
      | true => exact absurd ((contents_nil_iff s hv).mpr heb) hnonnil
    obtain ⟨hz, hsome, hv', hc'⟩ := txbuf_get_spec s hv hne
    rw [hc] at hc'
    injection hc' with h1 h2
    obtain ⟨ih1, ih2, ih3⟩ := ih f (txbuf_get s).1 hv' h2.symm (by
      simp only [List.length_cons] at hf
      omega)
    have hstep : drainLoop (f + 1) s =
        ((drainLoop f (txbuf_get s).1).1,
         (txbuf_get s).2.2.toList ++ (drainLoop f (txbuf_get s).1).2.1,
         (drainLoop f (txbuf_get s).1).2.2 + 1) := by
      simp [drainLoop, hz]
    rw [hstep]
    refine ⟨?_, ?_, ?_⟩
    · simp only [hsome, Option.toList_some, ih1, ← h1]
      rfl
    · simp only [ih2, List.length_cons]
    · exact ih3

/-- C1: from any valid empty buffer state, putting at most 31 bytes succeeds
entirely, and the same number of subsequent gets returns exactly those bytes
in insertion order. -/
theorem claim_C1 (vs : List Nat) (s : TxBuf) (hv : Valid s)
    (he : is_txbuf_empty s = true) (hlen : vs.length ≤ 31) :
    (putList s vs).2 = 0 ∧
    (getList (putList s vs).1 vs.length).2 = vs.map some := by
  have hc : contents s = [] := (contents_nil_iff s hv).mpr he
  obtain ⟨h0, hv', hc'⟩ := putList_spec vs s hv (by rw [hc]; simpa)
  have hcs : contents (putList s vs).1 = vs := by rw [hc'] ; rw [hc] ; rfl
  obtain ⟨g1, _, _⟩ := getList_spec vs (putList s vs).1 hv' hcs
  exact ⟨h0, g1⟩

/-- C1 witness: `claim_C1` at the initial state and the bytes 10, 20, 30. -/
theorem claim_C1_witness :
    Valid initTxBuf ∧ is_txbuf_empty initTxBuf = true ∧
    ([10, 20, 30] : List Nat).length ≤ 31 ∧
    ((putList initTxBuf [10, 20, 30]).2 = 0 ∧
     (getList (putList initTxBuf [10, 20, 30]).1 3).2 = [10, 20, 30].map some) :=
  ⟨by decide, by decide, by decide,
   claim_C1 [10, 20, 30] initTxBuf (by decide) (by decide) (by decide)⟩

/-- C7: the initial state is empty; after putting `vs` (at most 31 bytes) onto
a valid empty buffer and getting all of them back, the buffer is empty again;
and after only the puts the buffer is full exactly when 31 bytes were put. -/
theorem claim_C7 (vs : List Nat) (s : TxBuf) (hv : Valid s)
    (he : is_txbuf_empty s = true) (hlen : vs.length ≤ 31) :
    is_txbuf_empty initTxBuf = true ∧
    (putList s vs).2 = 0 ∧
    is_txbuf_empty (getList (putList s vs).1 vs.length).1 = true ∧
    (is_txbuf_full (putList s vs).1 = true ↔ vs.length = 31) := by
  have hc : contents s = [] := (contents_nil_iff s hv).mpr he
  obtain ⟨h0, hv', hc'⟩ := putList_spec vs s hv (by rw [hc]; simpa)
  have hcs : contents (putList s vs).1 = vs := by rw [hc'] ; rw [hc] ; rfl
  obtain ⟨_, gv, gc⟩ := getList_spec vs (putList s vs).1 hv' hcs
  refine ⟨by decide, h0, (contents_nil_iff _ gv).mp gc, ?_⟩
  rw [full_iff_pending _ hv']
  have hpl : pending (putList s vs).1 = vs.length := by
    rw [← contents_length, hcs]
  rw [hpl]

/-- C7 witness: `claim_C7` with 31 bytes, hitting the full boundary. -/
theorem claim_C7_witness :
    Valid initTxBuf ∧ is_txbuf_empty initTxBuf = true ∧
    (List.replicate 31 7).length ≤ 31 ∧
    (is_txbuf_empty initTxBuf = true ∧
     (putList initTxBuf (List.replicate 31 7)).2 = 0 ∧
     is_txbuf_empty
       (getList (putList initTxBuf (List.replicate 31 7)).1
         (List.replicate 31 7).length).1 = true ∧
     (is_txbuf_full (putList initTxBuf (List.replicate 31 7)).1 = true ↔
       (List.replicate 31 7).length = 31)) :=
  ⟨by decide, by decide, by decide,
   claim_C7 (List.replicate 31 7) initTxBuf (by decide) (by decide) (by decide)⟩

/-- C8: if `N ≤ 31` bytes are put into a valid empty buffer before the
consumer acts, the drain loop (given enough fuel) returns exactly those `N`
bytes, makes exactly `N + 1` `txbuf_get` calls (the last returning Empty), and
leaves the buffer empty. -/
theorem claim_C8 (vs : List Nat) (s : TxBuf) (fuel : Nat) (hv : Valid s)
    (he : is_txbuf_empty s = true) (hlen : vs.length ≤ 31)
    (hfuel : vs.length + 1 ≤ fuel) :
    (drainLoop fuel (putList s vs).1).2.1 = vs ∧
    (drainLoop fuel (putList s vs).1).2.2 = vs.length + 1 ∧
    is_txbuf_empty (drainLoop fuel (putList s vs).1).1 = true := by
  have hc : contents s = [] := (contents_nil_iff s hv).mpr he
  obtain ⟨h0, hv', hc'⟩ := putList_spec vs s hv (by rw [hc]; simpa)
  have hcs : contents (putList s vs).1 = vs := by rw [hc'] ; rw [hc] ; rfl
  exact drainLoop_spec vs fuel (putList s vs).1 hv' hcs hfuel

/-- C8 witness: `claim_C8` with three bytes and fuel 4. -/
theorem claim_C8_witness :
    Valid initTxBuf ∧ is_txbuf_empty initTxBuf = true ∧
    ([4, 5, 6] : List Nat).length ≤ 31 ∧ ([4, 5, 6] : List Nat).length + 1 ≤ 4 ∧
    ((drainLoop 4 (putList initTxBuf [4, 5, 6]).1).2.1 = [4, 5, 6] ∧
     (drainLoop 4 (putList initTxBuf [4, 5, 6]).1).2.2 = [4, 5, 6].length + 1 ∧
     is_txbuf_empty (drainLoop 4 (putList initTxBuf [4, 5, 6]).1).1 = true) :=
  ⟨by decide, by decide, by decide, by decide,
   claim_C8 [4, 5, 6] initTxBuf 4 (by decide) (by decide) (by decide) (by decide)⟩

/-- The bytes the producer attempts over `k` cycles starting at counter `cnt`
are the consecutive values `'a' + cnt + n` truncated to a byte. -/
theorem senderRun_puts : ∀ (k : Nat) (s : TxBuf) (cnt : Nat),
    putsOf (senderRun s cnt k).2.2 =
      (List.range (3 * k)).map (fun n => (97 + (cnt + n)) % 256) := by
  intro k
  induction k with
  | zero => intro s cnt; simp [senderRun, putsOf]
  | succ k ih =>
    intro s cnt
    have hcyc : ∀ (t : TxBuf) (c : Nat),
        putsOf (senderCycle t c).2.2 = [senderByte c, senderByte (c + 1), senderByte (c + 1 + 1)] := by
      intro t c
      simp [senderCycle, senderInner, putsOf]
    have hcnt : ∀ (t : TxBuf) (c : Nat), (senderCycle t c).2.1 = c + 1 + 1 + 1 := by
      intro t c
      simp [senderCycle, senderInner]
    have h3 : 3 * (k + 1) = 3 + 3 * k := by ring
    simp only [senderRun, putsOf, List.filterMap_append]
    have hl : putsOf (senderRun (senderCycle s cnt).1 (senderCycle s cnt).2.1 k).2.2 =
        (List.range (3 * k)).map (fun n => (97 + (cnt + 1 + 1 + 1 + n)) % 256) := by
      rw [ih, hcnt]
    simp only [putsOf] at hcyc hl
    rw [hcyc, hl, h3, List.range_add, List.map_append, List.map_map]
    congr 1
    refine List.map_congr_left ?_
    intro n hn
    have he2 : cnt + 1 + 1 + 1 + n = cnt + (3 + n) := by omega
    simp [he2]

/-- C6 counterexample: the 27th byte the producer attempts (index 26, reached
in cycle 8) is 123, the character after 'z', which is outside the alphabet
'a'..'z' — the values do not cycle through the alphabet. -/
theorem claim_C6_counterexample :
    (putsOf (senderRun initTxBuf 0 9).2.2).getD 26 0 = 123 ∧
    ¬ (97 ≤ (putsOf (senderRun initTxBuf 0 9).2.2).getD 26 0 ∧
       (putsOf (senderRun initTxBuf 0 9).2.2).getD 26 0 ≤ 122) := by
  refine ⟨?_, ?_⟩ <;> decide

/-- C6 (amended): the bytes the producer attempts over any `k` cycles are the
consecutive values `('a' + n) mod 256` for `n = 0, 1, 2, ...` (so the batches
begin 'a','b','c' then 'd','e','f', but continue past 'z' without wrapping to
'a'; only the `unsigned char` truncation mod 256 applies). -/
theorem claim_C6 (k : Nat) :
    putsOf (senderRun initTxBuf 0 k).2.2 =
      (List.range (3 * k)).map (fun n => (97 + n) % 256) := by
  have h := senderRun_puts k initTxBuf 0
  simpa using h
